import Mathlib

/-!
Verification of the jira-changelog core against its specification.

This file is a shallow embedding of the two source files of the repository:

* Slack.js — the Slack delivery class: isEnabled, postChunk, postMessage
  (sequential chunk dispatch over a promise chain) and splitUpMessage
  (message chunking with line-preference and hard splits).
* cli.js — the CLI entry point: commandLineArgs, runProgram, parseRange and
  getRangeObject.

Message texts are modelled as `List Char` (the sources only manipulate them
with `length`, `split`, `substr`, `trim` and concatenation, all of which act
on JavaScript strings as sequences of code units; on the inputs considered
here `List Char` is an exact model).  Promises are modelled with `Except`:
a resolved promise is `Except.ok`, a rejected one is `Except.error`, and the
sequential `.then` chain of `postMessage` becomes a fold that stops at the
first error.  Network effects are modelled by passing the transport as a
function argument and recording the list of chunks actually POSTed.
-/

set_option maxRecDepth 100000

set_option maxHeartbeats 2000000

namespace JiraChangelog

/-! Slack.js, lines 97-153: message chunking. -/

/-- Constant MSG_SIZE_LIMIT from Slack.js line 3. -/
def MSG_SIZE_LIMIT : Nat := 4000

/-- The continuation marker `'...'` from Slack.js line 112. -/
def cont : List Char := ['.', '.', '.']

/-- Constant `limit = MSG_SIZE_LIMIT - continuation.length` from Slack.js
line 113. -/
def limit : Nat := MSG_SIZE_LIMIT - cont.length

/-- The whitespace class removed by JavaScript `String.prototype.trim`
(restricted to the ASCII range, which is all the sources ever produce). -/
def isJsWs (c : Char) : Bool :=
  c == ' ' || c == '\t' || c == '\n' || c == '\r' || c == '\x0B' || c == '\x0C'

/-- JavaScript `s.trim()`: drop whitespace from both ends. -/
def jsTrim (l : List Char) : List Char :=
  ((l.dropWhile isJsWs).reverse.dropWhile isJsWs).reverse

/-- Prepend a character to the first token of a token list (helper for the
two splitting scans below). -/
def consHead (c : Char) : List (List Char) → List (List Char)
  | [] => [[c]]
  | h :: t => (c :: h) :: t

/-- JavaScript `text.split('\n')` (Slack.js line 110): scan left to right;
each newline ends the current token and is dropped.  Adjacent, leading and
trailing newlines produce empty tokens, and the empty string splits to a
single empty token. -/
def splitNl : List Char → List (List Char)
  | [] => [[]]
  | c :: rest =>
    if c = '\n' then [] :: splitNl rest
    else consHead c (splitNl rest)

/-- The `while (line.length > 0)` loop of Slack.js lines 134-144, which
hard-splits a single line into slices of `limit` characters, trimming
whitespace at each cut and inserting the continuation marker.  The loop is
expressed with a fuel parameter so that it stays structurally recursive and
kernel-computable; `hardSplit_fuel` below shows that any fuel of at least
`line.length` computes the loop's true result, and `hardSplit_eq` restates
the JavaScript recurrence without fuel. -/
def hardSplitGo : Nat → List Char → List (List Char)
  | 0, _ => []
  | fuel + 1, line =>
    if line.length = 0 then []
    else
      let last := jsTrim (line.take limit)
      let rest := jsTrim (line.drop limit)
      if rest.length = 0 then [last]
      else (last ++ cont) :: hardSplitGo fuel (cont ++ rest)

/-- The hard-split loop of Slack.js lines 134-144 applied to one line. -/
def hardSplit (line : List Char) : List (List Char) :=
  hardSplitGo line.length line

/-- The body of the `lines.forEach` callback of Slack.js lines 116-147.
State is `(messages, block)`; the branch structure mirrors the source:
append the line (plus its newline) to the block when the tentative block
fits, otherwise flush a non-empty block and seed the next block with the
line alone, otherwise (empty block, so the line alone is over the limit)
hard-split the line. -/
def splitStep (st : List (List Char) × List Char) (line : List Char) :
    List (List Char) × List Char :=
  let tmpBlock := st.2 ++ line ++ ['\n']
  if tmpBlock.length ≤ MSG_SIZE_LIMIT then (st.1, tmpBlock)
  else if st.2.length ≠ 0 then (st.1 ++ [st.2], line)
  else (st.1 ++ hardSplit line, [])

/-- Function splitUpMessage from Slack.js lines 105-153: return `[text]`
when the text fits, otherwise split into lines, fold the block accumulator
over them, and flush the final non-empty block. -/
def splitUpMessage (text : List Char) : List (List Char) :=
  if text.length ≤ MSG_SIZE_LIMIT then [text]
  else
    let st := (splitNl text).foldl splitStep ([], [])
    if st.2.length ≠ 0 then st.1 ++ [st.2] else st.1

/-! Data model: configuration and ranges. -/

/-- The Range object built by `getRangeObject` (cli.js lines 153-177).
Fields model the keys `from`, `to`, `after`, `before`; `none` models a key
that is absent.  (In the one reachable case where JavaScript would store an
`undefined` value under a present key — `range.to = program.range[1]` with a
one-element array — the `from` key is present as well, so the emptiness
check of line 173 agrees with the all-fields-`none` test used here.) -/
structure Range where
  «from» : Option (List Char) := none
  «to» : Option (List Char) := none
  after : Option (List Char) := none
  before : Option (List Char) := none
deriving DecidableEq, Repr

/-- The `config.slack` block (Slack.js line 18, cli.js line 114). -/
structure SlackConfig where
  webhookURL : Option (List Char) := none
  channel : Option (List Char) := none
deriving DecidableEq, Repr

/-- The `config.sourceControl` block read by `getRangeObject` (cli.js
line 155). -/
structure SourceControlConfig where
  defaultRange : Option Range := none
deriving DecidableEq, Repr

/-- The `config.jira` block read by `runProgram` (cli.js line 74).  The
optional release-name generator callback is modelled as an optional value:
`some name` models a configured `generateReleaseVersionName` function that
resolves to `name`, while `none` models the absence of such a function. -/
structure JiraConfig where
  generateReleaseVersionName : Option (List Char) := none
deriving DecidableEq, Repr

/-- The configuration object returned by the config loader. -/
structure Config where
  slack : Option SlackConfig := none
  sourceControl : Option SourceControlConfig := none
  jira : JiraConfig := {}
deriving DecidableEq, Repr

/-! Slack.js, lines 17-95: transport. -/

/-- Method isEnabled (Slack.js lines 17-19): `config.slack &&
config.slack.webhookURL` — both the block and the URL must be present, and
the URL must be a truthy (non-empty) string. -/
def isEnabled (config : Config) : Bool :=
  match config.slack with
  | none => false
  | some s =>
    match s.webhookURL with
    | none => false
    | some url => url.length != 0

/-- The resolved value of the webhook fetch promise: Slack's response,
carrying the `ok` acknowledgment and an application-level `error` payload
(read at Slack.js lines 86-87). -/
structure SlackResponse where
  ok : Bool
  error : String
deriving DecidableEq, Repr

/-- Method postChunk (Slack.js lines 28-53): reject when the integration is
not configured, otherwise POST the body.  The network is modelled by the
`fetch` argument. -/
def postChunk (config : Config) (fetch : List Char → Except String SlackResponse)
    (body : List Char) : Except String SlackResponse :=
  if isEnabled config = false then Except.error "The slack API is not configured."
  else fetch body

/-- Function sendChunk (Slack.js lines 84-92): POST one chunk and turn a
response that lacks the `ok` acknowledgment into a rejection carrying the
response's error payload. -/
def sendChunk (config : Config) (fetch : List Char → Except String SlackResponse)
    (text : List Char) : Except String SlackResponse :=
  match postChunk config fetch text with
  | Except.error e => Except.error e
  | Except.ok response =>
      if response.ok = false then Except.error response.error
      else Except.ok response

/-- The promise chain of Slack.js lines 78-80:
`chunks.reduce((promise, text) => promise.then(() => sendChunk(text)),
Promise.resolve())`.  A `.then` continuation runs only after the previous
promise resolved, and a rejection skips every later continuation, so the
chain is a left-to-right fold that stops at the first error.  The second
component records the chunks whose POST was actually attempted. -/
def dispatchAll (config : Config) (fetch : List Char → Except String SlackResponse) :
    List (List Char) → Except String Unit × List (List Char)
  | [] => (Except.ok (), [])
  | c :: rest =>
    match sendChunk config fetch c with
    | Except.error e => (Except.error e, [c])
    | Except.ok _ =>
      let r := dispatchAll config fetch rest
      (r.1, c :: r.2)

/-- The observable outcome of postMessage. -/
inductive PostOutcome where
  /-- The returned promise was rejected before any chunking happened. -/
  | rejected (msg : String)
  /-- Resolved with an empty object: the slack integration is not
  configured. -/
  | resolvedEmpty
  /-- Every chunk was accepted. -/
  | sent
  /-- Some chunk's dispatch failed; `e` is the propagated rejection. -/
  | failed (e : String)
deriving DecidableEq, Repr

/-- Method postMessage (Slack.js lines 63-95): reject empty text, resolve
with an empty object when the integration is disabled, otherwise chunk the
text and dispatch the chunks sequentially.  Returns the outcome together
with the list of chunks whose POST was attempted. -/
def postMessage (config : Config) (fetch : List Char → Except String SlackResponse)
    (text : List Char) : PostOutcome × List (List Char) :=
  if text.length = 0 then (PostOutcome.rejected "No text to send to slack.", [])
  else if isEnabled config = false then (PostOutcome.resolvedEmpty, [])
  else
    let r := dispatchAll config fetch (splitUpMessage text)
    match r.1 with
    | Except.ok _ => (PostOutcome.sent, r.2)
    | Except.error e => (PostOutcome.failed e, r.2)

/-! cli.js, lines 142-144: parseRange.

The call `rangeStr.split(/\.{3,3}/)` splits on the regular expression
matching exactly three consecutive dots (the bounded repetition `{3,3}`
means "at least 3 and at most 3").  The split scans left to right: at each
position, if the next three characters are dots they end the current token
and are consumed, otherwise the character joins the current token. -/

/-- Split on exactly three consecutive dots, as the regular expression of
cli.js line 143 does. -/
def splitDots3 : List Char → List (List Char)
  | [] => [[]]
  | [c] => [[c]]
  | [c, d] => [[c, d]]
  | c :: d :: e :: rest =>
    if c = '.' ∧ d = '.' ∧ e = '.' then [] :: splitDots3 rest
    else consHead c (splitDots3 (d :: e :: rest))

/-- Function parseRange (cli.js lines 142-144). -/
def parseRange (rangeStr : List Char) : List (List Char) :=
  splitDots3 rangeStr

/-! cli.js, lines 25-52 and 153-177: command-line options and
getRangeObject. -/

/-- The `--release [release]` flag: absent, bare (`program.release ===
true`), or given an explicit name. -/
inductive ReleaseOpt where
  | absent
  | flag
  | named (name : List Char)
deriving DecidableEq, Repr

/-- The parsed-arguments object `program` as read by `runProgram` and
`getRangeObject`.  Fields `range`, `date` and `dateRange` model the
corresponding properties; `none` models `undefined`. -/
structure ProgramOpts where
  range : Option (List (List Char)) := none
  date : Option (List (List Char)) := none
  dateRange : Option (List (List Char)) := none
  release : ReleaseOpt := ReleaseOpt.absent
  slack : Bool := false
deriving DecidableEq, Repr

/-- Function commandLineArgs (cli.js lines 25-52).  commander stores each
parsed option under the camel-cased name of its long flag: `--range` is
stored as `program.range` and `--date` as `program.date`, each passed
through `parseRange`.  No declared option has the long flag `--date-range`,
so the property `program.dateRange` is never set by the parser and is
always `undefined` (`none`). -/
def commandLineArgs (rangeArg dateArg : Option (List Char))
    (releaseArg : ReleaseOpt) (slackArg : Bool) : ProgramOpts :=
  { range := rangeArg.map parseRange
    date := dateArg.map parseRange
    dateRange := none
    release := releaseArg
    slack := slackArg }

/-- The default range `(config.sourceControl &&
config.sourceControl.defaultRange) ? config.sourceControl.defaultRange :
{}` of cli.js line 155. -/
def defaultRangeOf (config : Config) : Range :=
  match config.sourceControl with
  | none => {}
  | some sc =>
    match sc.defaultRange with
    | none => {}
    | some d => d

/-- Test `Object.keys(range).length` is zero: the range has no populated
fields. -/
def rangeKeysEmpty (r : Range) : Bool :=
  r.«from».isNone && r.«to».isNone && r.after.isNone && r.before.isNone

/-- The range value built by `getRangeObject` (cli.js lines 154-171) just
before the final emptiness check: populate `from`/`to` from
`program.range`, `after`/`before` from `program.dateRange`, then fall back
to the configured default range when nothing was populated. -/
def buildRange (opts : ProgramOpts) (config : Config) : Range :=
  let r1 : Range :=
    match opts.range with
    | some l => if l.length ≠ 0 then { «from» := l[0]?, «to» := l[1]? } else {}
    | none => {}
  let r2 : Range :=
    match opts.dateRange with
    | some l =>
      if l.length ≠ 0 then
        { r1 with after := l[0]?, before := if 1 < l.length then l[1]? else none }
      else r1
    | none => r1
  if rangeKeysEmpty r2 && !(rangeKeysEmpty (defaultRangeOf config)) then
    defaultRangeOf config
  else r2

/-- Function getRangeObject (cli.js lines 153-177): build the range and
throw the error `'No range defined for the changelog.'` when it has no
keys. -/
def getRangeObject (opts : ProgramOpts) (config : Config) : Except String Range :=
  if rangeKeysEmpty (buildRange opts config) then
    Except.error "No range defined for the changelog."
  else Except.ok (buildRange opts config)

/-! cli.js, lines 57-102: runProgram.

The collaborators called after range resolution (SourceControl, Jira, the
template renderer) are not part of the two source files; they are modelled
as function arguments, each returning `Except` to model a promise.
`postToSlack` catches every delivery error internally (cli.js lines
120-133), so delivery never changes the run's outcome and is omitted from
the observable trace. -/

/-- The external collaborators of runProgram. -/
structure Collabs where
  getCommitLogs : Range → Except String (List (List Char))
  generate : List (List Char) → Option (List Char) → Except String (List Char)
  renderChangelog : List Char → Except String (List Char)

/-- The observable behaviour of one runProgram invocation. -/
structure RunTrace where
  /-- The guidance message of cli.js line 75 was printed. -/
  printedGuidance : Bool
  /-- The call `source.getCommitLogs` (cli.js line 83) was invoked. -/
  commitFetchAttempted : Bool
  /-- Holds `some e` when the top-level catch (cli.js lines 98-101) caught
  the error `e`. -/
  errored : Option String
deriving DecidableEq, Repr

/-- Function runProgram (cli.js lines 57-102), from the point where the
config has been loaded: the release-flag soft exit (lines 73-79), range
resolution (line 82), commit fetch (line 83), changelog generation
(line 84) and template rendering (lines 87-88), under the single top-level
try/catch. -/
def runProgram (config : Config) (collabs : Collabs) (opts : ProgramOpts) : RunTrace :=
  if opts.release = ReleaseOpt.flag ∧ config.jira.generateReleaseVersionName = none then
    { printedGuidance := true, commitFetchAttempted := false, errored := none }
  else
    let release : Option (List Char) :=
      match opts.release with
      | ReleaseOpt.absent => none
      | ReleaseOpt.flag => config.jira.generateReleaseVersionName
      | ReleaseOpt.named name => some name
    match getRangeObject opts config with
    | Except.error e =>
      { printedGuidance := false, commitFetchAttempted := false, errored := some e }
    | Except.ok range =>
      match collabs.getCommitLogs range with
      | Except.error e =>
        { printedGuidance := false, commitFetchAttempted := true, errored := some e }
      | Except.ok logs =>
        match collabs.generate logs release with
        | Except.error e =>
          { printedGuidance := false, commitFetchAttempted := true, errored := some e }
        | Except.ok changelog =>
          match collabs.renderChangelog changelog with
          | Except.error e =>
            { printedGuidance := false, commitFetchAttempted := true, errored := some e }
          | Except.ok _ =>
            { printedGuidance := false, commitFetchAttempted := true, errored := none }

/-! Concrete inputs used by counterexamples and witnesses. -/

/-- A 4102-character text: the character `'a'`, a newline, then a single
4100-character line of `'b'`s.  When the long line arrives, the block
already holds the first two characters. -/
def c1FailingInput : List Char := 'a' :: '\n' :: List.replicate 4100 'b'

/-- A 6012-character text of three lines (3000 `'a'`s, 3000 `'b'`s, 10
`'c'`s); no line exceeds the limit and no hard split occurs. -/
def c2FailingInput : List Char :=
  List.replicate 3000 'a' ++ '\n' :: (List.replicate 3000 'b' ++ '\n' :: List.replicate 10 'c')

/-- A three-line text whose chunking yields exactly three chunks. -/
def c3Text : List Char :=
  List.replicate 3000 'x' ++ '\n' :: (List.replicate 3000 'y' ++ '\n' :: List.replicate 3000 'z')

/-- First chunk of `c3Text`: the first line with its newline. -/
def c3Chunk1 : List Char := List.replicate 3000 'x' ++ ['\n']

/-- Second chunk of `c3Text`: the second line alone. -/
def c3Chunk2 : List Char := List.replicate 3000 'y'

/-- Third chunk of `c3Text`: the third line alone. -/
def c3Chunk3 : List Char := List.replicate 3000 'z'

/-- A configuration whose slack integration is enabled. -/
def c3Config : Config := { slack := some { webhookURL := some ['u'] } }

/-- A transport that accepts every chunk except the second chunk of
`c3Text`, which it rejects. -/
def c3Fetch (t : List Char) : Except String SlackResponse :=
  if t = c3Chunk2 then Except.error "second chunk rejected" else Except.ok ⟨true, ""⟩

/-- Collaborators that always succeed (used as witnesses). -/
def noopCollabs : Collabs :=
  { getCommitLogs := fun _ => Except.ok []
    generate := fun _ _ => Except.ok []
    renderChangelog := fun c => Except.ok c }

/-- Delete every whitespace character and every dot from a text.  Inserted
continuation markers consist of dots, and the chunker only ever inserts,
deletes or moves whitespace (newlines at block boundaries, trimming at hard
cuts) and markers, so this is the normalization under which chunking
preserves the text. -/
def dropWsDots (l : List Char) : List Char :=
  l.filter (fun c => !(isJsWs c || c == '.'))

/-! Supporting lemmas about trimming. -/

theorem length_dropWhile_le (p : Char → Bool) (l : List Char) :
    (l.dropWhile p).length ≤ l.length := by
  induction l with
  | nil => simp
  | cons a t ih =>
    rw [List.dropWhile_cons]
    split
    · exact Nat.le_trans ih (Nat.le_succ _)
    · simp

theorem jsTrim_length_le (l : List Char) : (jsTrim l).length ≤ l.length := by
  unfold jsTrim
  calc ((l.dropWhile isJsWs).reverse.dropWhile isJsWs).reverse.length
      = ((l.dropWhile isJsWs).reverse.dropWhile isJsWs).length := by simp
    _ ≤ (l.dropWhile isJsWs).reverse.length := length_dropWhile_le _ _
    _ = (l.dropWhile isJsWs).length := by simp
    _ ≤ l.length := length_dropWhile_le _ _

theorem dropWhile_eq_self_of (p : Char → Bool) (l : List Char)
    (h : ∀ c ∈ l, p c = false) : l.dropWhile p = l := by
  cases l with
  | nil => rfl
  | cons a t =>
    exact List.dropWhile_cons_of_neg (by simp [h a (List.mem_cons_self a t)])

theorem jsTrim_eq_self (l : List Char) (h : ∀ c ∈ l, isJsWs c = false) :
    jsTrim l = l := by
  unfold jsTrim
  rw [dropWhile_eq_self_of _ _ h]
  rw [dropWhile_eq_self_of _ _ (fun c hc => h c (List.mem_reverse.mp hc))]
  exact List.reverse_reverse l

theorem noWs_replicate (n : Nat) (ch : Char) (h : isJsWs ch = false) :
    ∀ c ∈ List.replicate n ch, isJsWs c = false := by
  intro c hc
  rw [(List.mem_replicate.mp hc).2]
  exact h

theorem jsTrim_replicate (n : Nat) (ch : Char) (h : isJsWs ch = false) :
    jsTrim (List.replicate n ch) = List.replicate n ch :=
  jsTrim_eq_self _ (noWs_replicate n ch h)

theorem not_mem_replicate (ch c : Char) (h : c ≠ ch) (n : Nat) :
    c ∉ List.replicate n ch :=
  fun hm => h (List.mem_replicate.mp hm).2

/-! Supporting lemmas about the hard-split loop. -/

/-- The argument of the recursive call of the hard-split loop is strictly
shorter than the line being split, whenever the loop recurses at all. -/
theorem hardSplit_rec_lt (line : List Char)
    (hrest : ¬ (jsTrim (line.drop limit)).length = 0) :
    (cont ++ jsTrim (line.drop limit)).length < line.length := by
  have hlong : limit < line.length := by
    by_contra hcon
    have hlen : (line.drop limit).length = 0 := by
      rw [List.length_drop]; omega
    have hdrop : line.drop limit = [] := List.eq_nil_of_length_eq_zero hlen
    rw [hdrop] at hrest
    simp [jsTrim] at hrest
  have hrl := jsTrim_length_le (line.drop limit)
  rw [List.length_drop] at hrl
  have hl : limit = 3997 := by decide
  simp only [List.length_append]
  have hc : cont.length = 3 := by decide
  omega

/-- Fuel irrelevance for the hard-split loop: any fuel of at least the
line's length computes the same result as fuel exactly the line's length. -/
theorem hardSplitGo_eq : ∀ (n : Nat) (line : List Char) (f : Nat),
    line.length = n → n ≤ f → hardSplitGo f line = hardSplitGo n line := by
  intro n
  induction n using Nat.strong_induction_on with
  | _ n ih =>
    intro line f hn hf
    rcases n with _ | m
    · have hl : line = [] := List.eq_nil_of_length_eq_zero hn
      subst hl
      rcases f with _ | g
      · rfl
      · simp [hardSplitGo]
    · rcases f with _ | g
      · omega
      · have h0 : ¬ (line.length = 0) := by omega
        simp only [hardSplitGo, if_neg h0]
        by_cases hrest : (jsTrim (line.drop limit)).length = 0
        · simp only [if_pos hrest]
        · simp only [if_neg hrest]
          congr 1
          have hlt := hardSplit_rec_lt line hrest
          calc hardSplitGo g (cont ++ jsTrim (line.drop limit))
              = hardSplitGo (cont ++ jsTrim (line.drop limit)).length
                  (cont ++ jsTrim (line.drop limit)) :=
                ih _ (by omega) _ g rfl (by omega)
            _ = hardSplitGo m (cont ++ jsTrim (line.drop limit)) :=
                (ih _ (by omega) _ m rfl (by omega)).symm

/-- Sufficient fuel computes exactly the hard split. -/
theorem hardSplit_fuel (f : Nat) (line : List Char) (h : line.length ≤ f) :
    hardSplitGo f line = hardSplit line :=
  hardSplitGo_eq line.length line f rfl h

/-- The JavaScript recurrence of the hard-split loop, stated without fuel:
one iteration takes a `limit`-sized trimmed slice, and when a remainder is
left it carries the continuation marker on both sides of the cut. -/
theorem hardSplit_eq (line : List Char) :
    hardSplit line =
      if line.length = 0 then []
      else
        if (jsTrim (line.drop limit)).length = 0 then [jsTrim (line.take limit)]
        else (jsTrim (line.take limit) ++ cont) ::
          hardSplit (cont ++ jsTrim (line.drop limit)) := by
  by_cases h0 : line.length = 0
  · have hl : line = [] := List.eq_nil_of_length_eq_zero h0
    subst hl
    simp [hardSplit, hardSplitGo]
  · rw [if_neg h0]
    have h1 : hardSplit line = hardSplitGo (line.length - 1 + 1) line := by
      unfold hardSplit; congr 1; omega
    rw [h1]
    simp only [hardSplitGo, if_neg h0]
    by_cases hrest : (jsTrim (line.drop limit)).length = 0
    · simp only [if_pos hrest]
    · simp only [if_neg hrest]
      congr 1
      have hlt := hardSplit_rec_lt line hrest
      exact hardSplit_fuel _ _ (by omega)

/-! Supporting lemmas about the newline split. -/

theorem splitNl_cons_nl (l : List Char) : splitNl ('\n' :: l) = [] :: splitNl l := by
  simp [splitNl]

theorem splitNl_cons_ne (c : Char) (l : List Char) (hc : ¬ (c = '\n')) :
    splitNl (c :: l) = consHead c (splitNl l) := by
  simp only [splitNl, if_neg hc]

theorem splitNl_no_nl (l : List Char) (h : '\n' ∉ l) : splitNl l = [l] := by
  induction l with
  | nil => rfl
  | cons c rest ih =>
    have hc : ¬ (c = '\n') := fun hcc => h (hcc ▸ List.mem_cons_self c rest)
    have hrest : '\n' ∉ rest := fun hm => h (List.mem_cons_of_mem c hm)
    rw [splitNl_cons_ne c rest hc, ih hrest]
    rfl

theorem splitNl_append (a rest : List Char) (h : '\n' ∉ a) :
    splitNl (a ++ '\n' :: rest) = a :: splitNl rest := by
  induction a with
  | nil =>
    rw [List.nil_append, splitNl_cons_nl]
  | cons c a' ih =>
    have hc : ¬ (c = '\n') := fun hcc => h (hcc ▸ List.mem_cons_self c a')
    have ha' : '\n' ∉ a' := fun hm => h (List.mem_cons_of_mem c hm)
    rw [List.cons_append, splitNl_cons_ne c _ hc, ih ha']
    rfl

/-! Supporting lemmas about one fold step. -/

theorem splitStep_fits (st : List (List Char) × List Char) (line : List Char)
    (h : (st.2 ++ line ++ ['\n']).length ≤ MSG_SIZE_LIMIT) :
    splitStep st line = (st.1, st.2 ++ line ++ ['\n']) := by
  unfold splitStep
  rw [if_pos h]

theorem splitStep_flush (st : List (List Char) × List Char) (line : List Char)
    (h1 : ¬ (st.2 ++ line ++ ['\n']).length ≤ MSG_SIZE_LIMIT)
    (h2 : st.2.length ≠ 0) :
    splitStep st line = (st.1 ++ [st.2], line) := by
  unfold splitStep
  rw [if_neg h1, if_pos h2]

theorem splitStep_hard (st : List (List Char) × List Char) (line : List Char)
    (h1 : ¬ (st.2 ++ line ++ ['\n']).length ≤ MSG_SIZE_LIMIT)
    (h2 : ¬ st.2.length ≠ 0) :
    splitStep st line = (st.1 ++ hardSplit line, []) := by
  unfold splitStep
  rw [if_neg h1, if_neg h2]

/-- The over-limit branch of splitUpMessage, with the local state spelled
out. -/
theorem splitUpMessage_eq (text : List Char) (h : ¬ text.length ≤ MSG_SIZE_LIMIT) :
    splitUpMessage text =
      if ((splitNl text).foldl splitStep ([], [])).2.length ≠ 0 then
        ((splitNl text).foldl splitStep ([], [])).1 ++
          [((splitNl text).foldl splitStep ([], [])).2]
      else ((splitNl text).foldl splitStep ([], [])).1 := by
  unfold splitUpMessage
  rw [if_neg h]

/-! Concrete evaluations of the chunker, proved equationally (the inputs
are thousands of characters long, so they are computed with the lemmas
above rather than by kernel evaluation). -/

theorem hardSplit_cont_1003 :
    hardSplit (cont ++ List.replicate 1003 'a') = [cont ++ List.replicate 1003 'a'] := by
  have hwa : isJsWs 'a' = false := by decide
  have hlim : limit = 3997 := by decide
  have hlen : (cont ++ List.replicate 1003 'a').length = 1006 := by
    simp only [List.length_append, List.length_replicate]
    rfl
  rw [hardSplit_eq]
  rw [if_neg (by rw [hlen]; omega)]
  rw [hlim]
  rw [List.drop_of_length_le (by rw [hlen]; omega)]
  rw [show jsTrim [] = [] from rfl]
  rw [if_pos (show ([] : List Char).length = 0 from rfl)]
  rw [List.take_of_length_le (by rw [hlen]; omega)]
  rw [jsTrim_eq_self _ ?hno]
  case hno =>
    intro c hc
    rcases List.mem_append.mp hc with h1 | h2
    · have hcd : c = '.' := by simpa [cont] using h1
      rw [hcd]; rfl
    · rw [(List.mem_replicate.mp h2).2]; exact hwa

theorem hardSplit_replicate_5000 :
    hardSplit (List.replicate 5000 'a') =
      [List.replicate 3997 'a' ++ cont, cont ++ List.replicate 1003 'a'] := by
  have hwa : isJsWs 'a' = false := by decide
  have hlim : limit = 3997 := by decide
  rw [hardSplit_eq]
  rw [if_neg (by simp only [List.length_replicate]; omega)]
  rw [hlim, List.take_replicate, List.drop_replicate]
  rw [show min (3997 : Nat) 5000 = 3997 from rfl]
  rw [show (5000 : Nat) - 3997 = 1003 from rfl]
  rw [jsTrim_replicate _ _ hwa, jsTrim_replicate _ _ hwa]
  rw [if_neg (by simp only [List.length_replicate]; omega)]
  rw [hardSplit_cont_1003]

theorem splitUpMessage_replicate_5000 :
    splitUpMessage (List.replicate 5000 'a') =
      [List.replicate 3997 'a' ++ cont, cont ++ List.replicate 1003 'a'] := by
  have hnn : '\n' ∉ List.replicate 5000 'a' := not_mem_replicate 'a' '\n' (by decide) 5000
  rw [splitUpMessage_eq _ (by simp only [List.length_replicate, MSG_SIZE_LIMIT]; omega)]
  rw [splitNl_no_nl _ hnn]
  rw [List.foldl_cons, List.foldl_nil]
  rw [splitStep_hard ([], []) _
    (by
      simp only [List.length_append, List.length_replicate, List.length_cons,
        List.length_nil, List.nil_append, MSG_SIZE_LIMIT]
      omega)
    (by simp)]
  rw [hardSplit_replicate_5000]
  rfl

theorem splitUpMessage_c1 :
    splitUpMessage c1FailingInput = [['a', '\n'], List.replicate 4100 'b'] := by
  have hnb : '\n' ∉ List.replicate 4100 'b' := not_mem_replicate 'b' '\n' (by decide) 4100
  have hsp : splitNl c1FailingInput = [['a'], List.replicate 4100 'b'] := by
    show splitNl (['a'] ++ '\n' :: List.replicate 4100 'b') = _
    rw [splitNl_append _ _ (by decide), splitNl_no_nl _ hnb]
  have hlen : c1FailingInput.length = 4102 := by
    simp only [c1FailingInput, List.length_cons, List.length_replicate]
  rw [splitUpMessage_eq _ (by rw [hlen]; simp only [MSG_SIZE_LIMIT]; omega)]
  rw [hsp]
  rw [List.foldl_cons, List.foldl_cons, List.foldl_nil]
  rw [splitStep_fits ([], []) ['a'] (by simp only [MSG_SIZE_LIMIT]; decide)]
  rw [splitStep_flush ([], [] ++ ['a'] ++ ['\n']) _
    (by
      simp only [List.length_append, List.length_replicate, List.length_cons,
        List.length_nil, List.nil_append, MSG_SIZE_LIMIT]
      omega)
    (by decide)]
  rw [if_pos (show (List.replicate 4100 'b').length ≠ 0 by
    rw [List.length_replicate]; omega)]
  rfl

theorem splitNl_c2 :
    splitNl c2FailingInput =
      [List.replicate 3000 'a', List.replicate 3000 'b', List.replicate 10 'c'] := by
  unfold c2FailingInput
  rw [splitNl_append _ _ (not_mem_replicate 'a' '\n' (by decide) 3000)]
  rw [splitNl_append _ _ (not_mem_replicate 'b' '\n' (by decide) 3000)]
  rw [splitNl_no_nl _ (not_mem_replicate 'c' '\n' (by decide) 10)]

theorem splitUpMessage_c2 :
    splitUpMessage c2FailingInput =
      [List.replicate 3000 'a' ++ ['\n'],
        List.replicate 3000 'b' ++ List.replicate 10 'c' ++ ['\n']] := by
  have hsp := splitNl_c2
  have hlen : c2FailingInput.length = 6012 := by
    simp only [c2FailingInput, List.length_append, List.length_cons,
      List.length_replicate]
  rw [splitUpMessage_eq _ (by rw [hlen]; simp only [MSG_SIZE_LIMIT]; omega)]
  rw [hsp]
  rw [List.foldl_cons, List.foldl_cons, List.foldl_cons, List.foldl_nil]
  rw [splitStep_fits ([], []) _
    (by
      simp only [List.length_append, List.length_replicate, List.length_cons,
        List.length_nil, List.nil_append, MSG_SIZE_LIMIT]
      omega)]
  rw [splitStep_flush ([], [] ++ List.replicate 3000 'a' ++ ['\n']) _
    (by
      simp only [List.length_append, List.length_replicate, List.length_cons,
        List.length_nil, List.nil_append, MSG_SIZE_LIMIT]
      omega)
    (by simp only [List.length_append, List.length_replicate, List.length_cons,
        List.length_nil, List.nil_append]; omega)]
  rw [splitStep_fits ([] ++ [[] ++ List.replicate 3000 'a' ++ ['\n']], List.replicate 3000 'b') _
    (by
      simp only [List.length_append, List.length_replicate, List.length_cons,
        List.length_nil, List.nil_append, MSG_SIZE_LIMIT]
      omega)]
  rw [if_pos (show (List.replicate 3000 'b' ++ List.replicate 10 'c' ++ ['\n']).length ≠ 0 by
    simp only [List.length_append, List.length_replicate, List.length_cons,
      List.length_nil]
    omega)]
  rfl

theorem splitUpMessage_c3 :
    splitUpMessage c3Text = [c3Chunk1, c3Chunk2, c3Chunk3] := by
  have hsp : splitNl c3Text =
      [List.replicate 3000 'x', List.replicate 3000 'y', List.replicate 3000 'z'] := by
    unfold c3Text
    rw [splitNl_append _ _ (not_mem_replicate 'x' '\n' (by decide) 3000)]
    rw [splitNl_append _ _ (not_mem_replicate 'y' '\n' (by decide) 3000)]
    rw [splitNl_no_nl _ (not_mem_replicate 'z' '\n' (by decide) 3000)]
  have hlen : c3Text.length = 9002 := by
    simp only [c3Text, List.length_append, List.length_cons, List.length_replicate]
  rw [splitUpMessage_eq _ (by rw [hlen]; simp only [MSG_SIZE_LIMIT]; omega)]
  rw [hsp]
  rw [List.foldl_cons, List.foldl_cons, List.foldl_cons, List.foldl_nil]
  rw [splitStep_fits ([], []) _
    (by
      simp only [List.length_append, List.length_replicate, List.length_cons,
        List.length_nil, List.nil_append, MSG_SIZE_LIMIT]
      omega)]
  rw [splitStep_flush ([], [] ++ List.replicate 3000 'x' ++ ['\n']) _
    (by
      simp only [List.length_append, List.length_replicate, List.length_cons,
        List.length_nil, List.nil_append, MSG_SIZE_LIMIT]
      omega)
    (by simp only [List.length_append, List.length_replicate, List.length_cons,
        List.length_nil, List.nil_append]; omega)]
  rw [splitStep_flush ([] ++ [[] ++ List.replicate 3000 'x' ++ ['\n']], List.replicate 3000 'y') _
    (by
      simp only [List.length_append, List.length_replicate, List.length_cons,
        List.length_nil, List.nil_append, MSG_SIZE_LIMIT]
      omega)
    (by simp only [List.length_replicate]; omega)]
  rw [if_pos (show (List.replicate 3000 'z').length ≠ 0 by
    rw [List.length_replicate]; omega)]
  rfl

/-! Supporting lemmas for the dot split. -/

theorem splitDots3_cons3_ne (c d e : Char) (rest : List Char)
    (h : ¬ (c = '.' ∧ d = '.' ∧ e = '.')) :
    splitDots3 (c :: d :: e :: rest) = consHead c (splitDots3 (d :: e :: rest)) := by
  simp only [splitDots3, if_neg h]

theorem splitDots3_cons3_dots (rest : List Char) :
    splitDots3 ('.' :: '.' :: '.' :: rest) = [] :: splitDots3 rest := by
  simp [splitDots3]

theorem splitDots3_no_dots (l : List Char) (h : '.' ∉ l) : splitDots3 l = [l] := by
  induction l with
  | nil => rfl
  | cons c tail ih =>
    have hc : c ≠ '.' := fun hcc => h (hcc ▸ List.mem_cons_self c tail)
    have ht : '.' ∉ tail := fun hm => h (List.mem_cons_of_mem c hm)
    rcases tail with _ | ⟨d, tail2⟩
    · rfl
    · rcases tail2 with _ | ⟨e, tail3⟩
      · rfl
      · rw [splitDots3_cons3_ne c d e tail3 (fun hand => hc hand.1), ih ht]
        rfl

theorem splitDots3_sep (a b : List Char) (ha : '.' ∉ a) (hb : '.' ∉ b) :
    splitDots3 (a ++ '.' :: '.' :: '.' :: b) = [a, b] := by
  induction a with
  | nil =>
    rw [List.nil_append, splitDots3_cons3_dots, splitDots3_no_dots b hb]
  | cons c a' ih =>
    have hc : c ≠ '.' := fun hcc => ha (hcc ▸ List.mem_cons_self c a')
    have ha' : '.' ∉ a' := fun hm => ha (List.mem_cons_of_mem c hm)
    have hrec := ih ha'
    rcases a' with _ | ⟨d, a''⟩
    · rw [List.cons_append, List.nil_append]
      rw [splitDots3_cons3_ne c '.' '.' ('.' :: b) (fun hand => hc hand.1)]
      rw [List.nil_append] at hrec
      rw [hrec]
      rfl
    · rcases a'' with _ | ⟨e, a3⟩
      · simp only [List.cons_append, List.nil_append] at hrec ⊢
        rw [splitDots3_cons3_ne c d '.' ('.' :: '.' :: b) (fun hand => hc hand.1)]
        rw [hrec]
        rfl
      · simp only [List.cons_append] at hrec ⊢
        rw [splitDots3_cons3_ne c d e (a3 ++ '.' :: '.' :: '.' :: b) (fun hand => hc hand.1)]
        rw [hrec]
        rfl

/-! Claim theorems. -/

/-- C9: for every text with length at most 4000 (the transport limit),
splitUpMessage returns the single-element sequence holding the text
unmodified. -/
theorem c9_short_text_identity (t : List Char) (h : t.length ≤ 4000) :
    splitUpMessage t = [t] := by
  unfold splitUpMessage
  rw [if_pos (show t.length ≤ MSG_SIZE_LIMIT from h)]

/-- Witness for C9 at a text of exactly the limit's length: 4000 copies of
the letter a come back as one unmodified chunk. -/
theorem c9_short_text_identity_witness :
    (List.replicate 4000 'a').length ≤ 4000 ∧
      splitUpMessage (List.replicate 4000 'a') = [List.replicate 4000 'a'] :=
  ⟨by rw [List.length_replicate],
    c9_short_text_identity _ (by rw [List.length_replicate])⟩

/-- C1 (code bug): when a line longer than the limit is encountered while
the accumulating block already holds content, splitUpMessage flushes the
block and seeds the next block with the whole over-limit line; that block
is later pushed without ever being hard-split.  On `c1FailingInput` the
returned chunks are the two-character block and the whole 4100-character
line, so a chunk longer than 4000 exists, refuting the claimed bound. -/
theorem c1_oversized_chunk :
    ∃ m ∈ splitUpMessage c1FailingInput, 4000 < m.length := by
  refine ⟨List.replicate 4100 'b', ?_, ?_⟩
  · rw [splitUpMessage_c1]
    exact List.mem_cons_of_mem _ (List.mem_cons_self _ _)
  · rw [List.length_replicate]
    omega

/-- C8 counterexample: on the 5000-letter text the first chunk consists of
3997 letters plus the three-character continuation marker, so its length is
4000 and not `4000 - 3` as the claim states. -/
theorem c8_first_chunk_length_ne :
    ¬ (((splitUpMessage (List.replicate 5000 'a')).headD []).length = 4000 - 3) := by
  rw [splitUpMessage_replicate_5000]
  rw [show ([List.replicate 3997 'a' ++ cont,
      cont ++ List.replicate 1003 'a'].headD []) = List.replicate 3997 'a' ++ cont from rfl]
  rw [List.length_append, List.length_replicate]
  rw [show cont.length = 3 from rfl]
  omega

/-- C8 (amended): splitUpMessage on 5000 copies of the letter a produces
exactly 2 chunks; the first is 3997 letters followed by the marker `"..."`
(total length 4000, ending in the marker), the second is the marker
followed by the remaining 1003 letters (length 1006, beginning with the
marker). -/
theorem c8_split_5000_as :
    splitUpMessage (List.replicate 5000 'a') =
      [List.replicate 3997 'a' ++ cont, cont ++ List.replicate 1003 'a'] ∧
      (List.replicate 3997 'a' ++ cont).length = 4000 ∧
      (cont ++ List.replicate 1003 'a').length = 1006 := by
  refine ⟨splitUpMessage_replicate_5000, ?_, ?_⟩
  · rw [List.length_append, List.length_replicate, show cont.length = 3 from rfl]
  · rw [List.length_append, List.length_replicate, show cont.length = 3 from rfl]

/-- C4 (code bug): a value given to the `--date` flag is parsed and stored
as `program.date`, but `getRangeObject` reads `program.dateRange`, which
the command-line parser never sets; the supplied date therefore never
reaches the range, and with no other range source the resolution throws
the no-range error instead of producing a range with `after` set. -/
theorem c4_date_flag_never_populates_range :
    (commandLineArgs none (some ['2', '0', '2', '0', '-', '0', '1', '-', '0', '1'])
        ReleaseOpt.absent false).date =
        some [['2', '0', '2', '0', '-', '0', '1', '-', '0', '1']] ∧
      (commandLineArgs none (some ['2', '0', '2', '0', '-', '0', '1', '-', '0', '1'])
        ReleaseOpt.absent false).dateRange = none ∧
      getRangeObject
          (commandLineArgs none (some ['2', '0', '2', '0', '-', '0', '1', '-', '0', '1'])
            ReleaseOpt.absent false) {} =
        Except.error "No range defined for the changelog." :=
  ⟨by decide, rfl, rfl⟩

/-- C5: getRangeObject throws the no-range error exactly when the range it
built has no populated fields; in particular, with no CLI commit range, no
CLI date range and an empty (or absent) configured default range, it
throws. -/
theorem c5_throws_iff_no_keys (opts : ProgramOpts) (config : Config) :
    ((getRangeObject opts config = Except.error "No range defined for the changelog.") ↔
        rangeKeysEmpty (buildRange opts config) = true) ∧
      (opts.range = none → opts.dateRange = none →
        rangeKeysEmpty (defaultRangeOf config) = true →
        getRangeObject opts config = Except.error "No range defined for the changelog.") := by
  constructor
  · unfold getRangeObject
    by_cases hk : rangeKeysEmpty (buildRange opts config) = true
    · rw [if_pos hk]
      simp [hk]
    · rw [if_neg hk]
      constructor
      · intro h
        exact absurd h (by simp)
      · intro h
        exact absurd h hk
  · intro h1 h2 h3
    have hb : buildRange opts config = {} := by
      unfold buildRange
      rw [h1, h2]
      dsimp only
      rw [h3]
      simp
    unfold getRangeObject
    rw [hb]
    rw [if_pos (by decide)]

/-- Witness for C5: empty options and empty configuration make
getRangeObject throw the no-range error. -/
theorem c5_throws_iff_no_keys_witness :
    getRangeObject {} {} = Except.error "No range defined for the changelog." :=
  (c5_throws_iff_no_keys {} {}).2 rfl rfl (by decide)

/-- C6: a bare `--release` flag with no configured
generateReleaseVersionName callback makes runProgram print the guidance
message and return without error, and no later pipeline step (in
particular no commit-log fetch) executes. -/
theorem c6_release_soft_exit (config : Config) (collabs : Collabs) (opts : ProgramOpts)
    (hflag : opts.release = ReleaseOpt.flag)
    (hgen : config.jira.generateReleaseVersionName = none) :
    runProgram config collabs opts =
      { printedGuidance := true, commitFetchAttempted := false, errored := none } := by
  unfold runProgram
  rw [if_pos ⟨hflag, hgen⟩]

/-- Witness for C6 at a concrete configuration with no generator and a
bare release flag. -/
theorem c6_release_soft_exit_witness :
    runProgram {} noopCollabs { release := ReleaseOpt.flag } =
      { printedGuidance := true, commitFetchAttempted := false, errored := none } :=
  c6_release_soft_exit {} noopCollabs { release := ReleaseOpt.flag } rfl rfl

/-- C7 counterexample: the separator is exactly three dots, not three or
more; on the input with four consecutive dots the split consumes only the
first three, so the second token keeps a leading dot instead of being the
bare second operand the claim's three-or-more reading would produce. -/
theorem c7_four_dots_counterexample :
    parseRange ['a', '.', '.', '.', '.', 'b'] = [['a'], ['.', 'b']] ∧
      parseRange ['a', '.', '.', '.', '.', 'b'] ≠ [['a'], ['b']] :=
  ⟨by decide, by decide⟩

/-- C7 (amended): parseRange splits on a literal exactly-three-dot
separator; for operands containing no dot, the result is exactly the two
tokens, the first becoming `from` and the second `to`, and in particular
the input `"abc...def"` yields the range with `from = "abc"` and
`to = "def"`. -/
theorem c7_range_three_dots (a b : List Char) (config : Config)
    (ha : '.' ∉ a) (hb : '.' ∉ b) :
    parseRange (a ++ '.' :: '.' :: '.' :: b) = [a, b] ∧
      getRangeObject { range := some (parseRange (a ++ '.' :: '.' :: '.' :: b)) } config =
        Except.ok { «from» := some a, «to» := some b } := by
  have hsep : parseRange (a ++ '.' :: '.' :: '.' :: b) = [a, b] :=
    splitDots3_sep a b ha hb
  refine ⟨hsep, ?_⟩
  rw [hsep]
  simp [getRangeObject, buildRange, rangeKeysEmpty, defaultRangeOf]

/-- Witness for C7 at the concrete range string of the claim. -/
theorem c7_range_three_dots_witness :
    parseRange (['a', 'b', 'c'] ++ '.' :: '.' :: '.' :: ['d', 'e', 'f']) =
        [['a', 'b', 'c'], ['d', 'e', 'f']] ∧
      getRangeObject
          { range := some (parseRange (['a', 'b', 'c'] ++ '.' :: '.' :: '.' :: ['d', 'e', 'f'])) }
          {} =
        Except.ok { «from» := some ['a', 'b', 'c'], «to» := some ['d', 'e', 'f'] } :=
  c7_range_three_dots ['a', 'b', 'c'] ['d', 'e', 'f'] {} (by decide) (by decide)

/-- C10: postMessage rejects with the no-text error whenever the text is
empty; on non-empty text with the webhook not configured it resolves with
an empty object and attempts no POST. -/
theorem c10_empty_text_and_disabled (config : Config)
    (fetch : List Char → Except String SlackResponse) (text : List Char) :
    (text.length = 0 →
        postMessage config fetch text = (PostOutcome.rejected "No text to send to slack.", [])) ∧
      (text.length ≠ 0 → isEnabled config = false →
        postMessage config fetch text = (PostOutcome.resolvedEmpty, [])) := by
  constructor
  · intro h
    unfold postMessage
    rw [if_pos h]
  · intro h1 h2
    unfold postMessage
    rw [if_neg h1, if_pos h2]

/-- Witness for C10: an unconfigured transport rejects the empty text and
resolves a two-character text without any POST attempt. -/
theorem c10_empty_text_and_disabled_witness :
    postMessage {} (fun _ => Except.ok ⟨true, ""⟩) [] =
        (PostOutcome.rejected "No text to send to slack.", []) ∧
      postMessage {} (fun _ => Except.ok ⟨true, ""⟩) ['h', 'i'] =
        (PostOutcome.resolvedEmpty, []) :=
  ⟨(c10_empty_text_and_disabled {} _ []).1 rfl,
    (c10_empty_text_and_disabled {} _ ['h', 'i']).2 (by decide) rfl⟩

/-- C3: chunks are dispatched strictly sequentially and a failure aborts
the rest.  When splitUpMessage yields three chunks, the transport accepts
the first POST (with an acknowledged response) and rejects the second,
postMessage fails with the second chunk's error and exactly the first two
chunks were POSTed; the third chunk is never attempted. -/
theorem c3_sequential_dispatch_aborts (config : Config)
    (fetch : List Char → Except String SlackResponse)
    (text chunk1 chunk2 chunk3 : List Char) (r : SlackResponse) (e : String)
    (hen : isEnabled config = true)
    (hchunks : splitUpMessage text = [chunk1, chunk2, chunk3])
    (h1 : fetch chunk1 = Except.ok r) (hok : r.ok = true)
    (h2 : fetch chunk2 = Except.error e) :
    postMessage config fetch text = (PostOutcome.failed e, [chunk1, chunk2]) := by
  have hne : ¬ (isEnabled config = false) := by simp [hen]
  have htext : ¬ (text.length = 0) := by
    intro h0
    have hnil : text = [] := List.eq_nil_of_length_eq_zero h0
    rw [hnil] at hchunks
    rw [show splitUpMessage [] = [[]] from rfl] at hchunks
    exact absurd hchunks (by simp)
  have hs1 : sendChunk config fetch chunk1 = Except.ok r := by
    unfold sendChunk postChunk
    rw [if_neg hne, h1]
    show (if r.ok = false then Except.error r.error else Except.ok r) = Except.ok r
    rw [if_neg (by simp [hok])]
  have hs2 : sendChunk config fetch chunk2 = Except.error e := by
    unfold sendChunk postChunk
    rw [if_neg hne, h2]
  have hd : dispatchAll config fetch [chunk1, chunk2, chunk3] = (Except.error e, [chunk1, chunk2]) := by
    simp [dispatchAll, hs1, hs2]
  unfold postMessage
  rw [if_neg htext, if_neg hne, hchunks, hd]

/-- Witness for C3 at a three-line text split into three chunks, with a
transport that accepts the first chunk and rejects the second. -/
theorem c3_sequential_dispatch_aborts_witness :
    postMessage c3Config c3Fetch c3Text =
      (PostOutcome.failed "second chunk rejected", [c3Chunk1, c3Chunk2]) := by
  have h12 : c3Chunk1 ≠ c3Chunk2 := by
    intro h
    have hl := congrArg List.length h
    simp only [c3Chunk1, c3Chunk2, List.length_append, List.length_replicate,
      List.length_cons, List.length_nil] at hl
    omega
  have h1 : c3Fetch c3Chunk1 = Except.ok ⟨true, ""⟩ := by
    unfold c3Fetch
    rw [if_neg h12]
  have h2 : c3Fetch c3Chunk2 = Except.error "second chunk rejected" := by
    unfold c3Fetch
    rw [if_pos (rfl : c3Chunk2 = c3Chunk2)]
  exact c3_sequential_dispatch_aborts c3Config c3Fetch c3Text c3Chunk1 c3Chunk2 c3Chunk3
    ⟨true, ""⟩ "second chunk rejected" rfl splitUpMessage_c3 h1 rfl h2

/-! Supporting lemmas for the reconstruction property: deleting whitespace
and dots commutes with every operation the chunker performs. -/

theorem dropWsDots_append (l₁ l₂ : List Char) :
    dropWsDots (l₁ ++ l₂) = dropWsDots l₁ ++ dropWsDots l₂ := by
  simp [dropWsDots]

theorem dropWsDots_nl : dropWsDots ['\n'] = [] := rfl

theorem dropWsDots_cont : dropWsDots cont = [] := rfl

theorem dropWsDots_cons (c : Char) (l : List Char) :
    dropWsDots (c :: l) = dropWsDots [c] ++ dropWsDots l := by
  rw [show (c :: l) = [c] ++ l from rfl, dropWsDots_append]

theorem dropWsDots_dropWhile (l : List Char) :
    dropWsDots (l.dropWhile isJsWs) = dropWsDots l := by
  induction l with
  | nil => rfl
  | cons c t ih =>
    rw [List.dropWhile_cons]
    split
    · rename_i hws
      rw [ih]
      unfold dropWsDots
      rw [List.filter_cons, if_neg (by simp [hws])]
    · rfl

theorem dropWsDots_reverse (l : List Char) :
    dropWsDots l.reverse = (dropWsDots l).reverse := by
  simp [dropWsDots]

theorem dropWsDots_jsTrim (l : List Char) : dropWsDots (jsTrim l) = dropWsDots l := by
  unfold jsTrim
  rw [dropWsDots_reverse, dropWsDots_dropWhile, dropWsDots_reverse,
    List.reverse_reverse, dropWsDots_dropWhile]

theorem dropWsDots_hardSplitGo : ∀ (f : Nat) (line : List Char), line.length ≤ f →
    dropWsDots (hardSplitGo f line).flatten = dropWsDots line := by
  intro f
  induction f with
  | zero =>
    intro line h
    have hl : line = [] := List.eq_nil_of_length_eq_zero (Nat.le_zero.mp h)
    subst hl
    rfl
  | succ f ih =>
    intro line h
    by_cases h0 : line.length = 0
    · have hl : line = [] := List.eq_nil_of_length_eq_zero h0
      subst hl
      rfl
    · simp only [hardSplitGo, if_neg h0]
      by_cases hrest : (jsTrim (line.drop limit)).length = 0
      · simp only [if_pos hrest]
        have hdrop0 : dropWsDots (line.drop limit) = [] := by
          rw [← dropWsDots_jsTrim, List.eq_nil_of_length_eq_zero hrest]
          rfl
        rw [List.flatten_singleton, dropWsDots_jsTrim,
          show dropWsDots line
              = dropWsDots (line.take limit) ++ dropWsDots (line.drop limit) from by
            rw [← dropWsDots_append, List.take_append_drop],
          hdrop0, List.append_nil]
      · simp only [if_neg hrest]
        have hlt := hardSplit_rec_lt line hrest
        have hrec := ih (cont ++ jsTrim (line.drop limit)) (by omega)
        rw [List.flatten_cons, dropWsDots_append, dropWsDots_append, dropWsDots_cont,
          List.append_nil, dropWsDots_jsTrim, hrec, dropWsDots_append, dropWsDots_cont,
          List.nil_append, dropWsDots_jsTrim, ← dropWsDots_append, List.take_append_drop]

theorem dropWsDots_hardSplit (line : List Char) :
    dropWsDots (hardSplit line).flatten = dropWsDots line :=
  dropWsDots_hardSplitGo line.length line (Nat.le_refl _)

theorem flatten_map_dropWsDots_consHead (c : Char) (P : List (List Char)) :
    ((consHead c P).map dropWsDots).flatten =
      dropWsDots [c] ++ (P.map dropWsDots).flatten := by
  cases P with
  | nil => simp [consHead]
  | cons hd tl =>
    simp only [consHead, List.map_cons, List.flatten_cons]
    rw [dropWsDots_cons, List.append_assoc]

theorem dropWsDots_splitNl (l : List Char) :
    ((splitNl l).map dropWsDots).flatten = dropWsDots l := by
  induction l with
  | nil => rfl
  | cons c rest ih =>
    by_cases hc : c = '\n'
    · subst hc
      rw [splitNl_cons_nl]
      simp only [List.map_cons, List.flatten_cons]
      rw [show dropWsDots ([] : List Char) = [] from rfl, List.nil_append, ih,
        dropWsDots_cons, show dropWsDots ['\n'] = [] from rfl, List.nil_append]
    · rw [splitNl_cons_ne c rest hc, flatten_map_dropWsDots_consHead, ih,
        ← dropWsDots_cons]

theorem dropWsDots_splitStep (st : List (List Char) × List Char) (line : List Char) :
    dropWsDots ((splitStep st line).1.flatten ++ (splitStep st line).2) =
      dropWsDots (st.1.flatten ++ st.2) ++ dropWsDots line := by
  by_cases h1 : (st.2 ++ line ++ ['\n']).length ≤ MSG_SIZE_LIMIT
  · rw [splitStep_fits st line h1]
    show dropWsDots (st.1.flatten ++ (st.2 ++ line ++ ['\n'])) = _
    simp only [dropWsDots_append, dropWsDots_nl, List.append_nil, List.append_assoc]
  · by_cases h2 : st.2.length ≠ 0
    · rw [splitStep_flush st line h1 h2]
      show dropWsDots ((st.1 ++ [st.2]).flatten ++ line) = _
      simp only [List.flatten_append, List.flatten_singleton, dropWsDots_append,
        List.append_assoc]
    · rw [splitStep_hard st line h1 h2]
      have hB : st.2 = [] := List.eq_nil_of_length_eq_zero (by omega)
      show dropWsDots ((st.1 ++ hardSplit line).flatten ++ []) = _
      rw [List.append_nil, List.flatten_append, dropWsDots_append,
        dropWsDots_hardSplit, hB, List.append_nil]

theorem dropWsDots_foldl_splitStep :
    ∀ (lines : List (List Char)) (st : List (List Char) × List Char),
    dropWsDots ((lines.foldl splitStep st).1.flatten ++ (lines.foldl splitStep st).2) =
      dropWsDots (st.1.flatten ++ st.2) ++ (lines.map dropWsDots).flatten := by
  intro lines
  induction lines with
  | nil =>
    intro st
    simp only [List.foldl_nil, List.map_nil, List.flatten_nil, List.append_nil]
  | cons line rest ih =>
    intro st
    rw [List.foldl_cons, ih (splitStep st line), dropWsDots_splitStep]
    simp only [List.map_cons, List.flatten_cons, List.append_assoc]

/-- C2 counterexample: on `c2FailingInput` no line exceeds the limit and no
continuation marker is inserted (no dot occurs anywhere in the output), yet
concatenating the chunks does not reconstruct the text: the newline that
separated the second and third lines is dropped at the chunk seam and a
trailing newline is appended. -/
theorem c2_exact_roundtrip_fails :
    (∀ line ∈ splitNl c2FailingInput, line.length ≤ 4000) ∧
      '.' ∉ (splitUpMessage c2FailingInput).flatten ∧
      (splitUpMessage c2FailingInput).flatten ≠ c2FailingInput := by
  refine ⟨?_, ?_, ?_⟩
  · rw [splitNl_c2]
    intro line hline
    simp only [List.mem_cons, List.not_mem_nil, or_false] at hline
    rcases hline with rfl | rfl | rfl
    · rw [List.length_replicate]; omega
    · rw [List.length_replicate]; omega
    · rw [List.length_replicate]; omega
  · rw [splitUpMessage_c2]
    intro hm
    rw [List.flatten_cons, List.flatten_cons, List.flatten_nil, List.append_nil] at hm
    rcases List.mem_append.mp hm with hm1 | hm2
    · rcases List.mem_append.mp hm1 with hh | hh
      · exact not_mem_replicate 'a' '.' (by decide) 3000 hh
      · exact absurd hh (by decide)
    · rcases List.mem_append.mp hm2 with hh | hh
      · rcases List.mem_append.mp hh with hg | hg
        · exact not_mem_replicate 'b' '.' (by decide) 3000 hg
        · exact not_mem_replicate 'c' '.' (by decide) 10 hg
      · exact absurd hh (by decide)
  · rw [splitUpMessage_c2]
    intro heq
    rw [List.flatten_cons, List.flatten_cons, List.flatten_nil, List.append_nil] at heq
    unfold c2FailingInput at heq
    rw [List.append_assoc, List.singleton_append] at heq
    have h1 := List.append_cancel_left heq
    injection h1 with hh ht
    rw [List.append_assoc] at ht
    have h3 := List.append_cancel_left ht
    exact absurd h3 (by decide)

/-- C2 (amended): the chunk sequence preserves the text up to whitespace
and marker dots.  Exact reconstruction fails (see the counterexample):
the chunker inserts, drops and moves only newlines (at block boundaries),
trimmed whitespace (at hard-cut points) and the dot-built continuation
markers, so after deleting every whitespace character and every dot from
both sides, concatenating all chunks of splitUpMessage reconstructs the
text exactly, for every text. -/
theorem c2_reconstruction_up_to_ws_and_dots (t : List Char) :
    dropWsDots (splitUpMessage t).flatten = dropWsDots t := by
  by_cases h : t.length ≤ MSG_SIZE_LIMIT
  · have hone : splitUpMessage t = [t] := by
      unfold splitUpMessage
      rw [if_pos h]
    rw [hone, List.flatten_singleton]
  · rw [splitUpMessage_eq t h]
    have hinv := dropWsDots_foldl_splitStep (splitNl t) ([], [])
    rw [dropWsDots_splitNl] at hinv
    rw [show dropWsDots ((([] : List (List Char)).flatten ++ ([] : List Char))) = []
      from rfl] at hinv
    rw [List.nil_append] at hinv
    by_cases hb : ((splitNl t).foldl splitStep ([], [])).2.length ≠ 0
    · rw [if_pos hb, ← hinv, List.flatten_append, List.flatten_singleton]
    · rw [if_neg hb]
      have hB : ((splitNl t).foldl splitStep ([], [])).2 = [] :=
        List.eq_nil_of_length_eq_zero (by omega)
      rw [← hinv, hB, List.append_nil]

end JiraChangelog
